import Mathlib

/-!
Shallow embedding of `src/Main_Programme.py` (Drawing Renamer Tool) and
verification of its specification.

Modelling conventions:
  * A pandas `New Name` cell is `Option String`: `none` models a null (NaN),
    `some s` a string value (possibly `""`).
  * The mapping table `drawings_df` is an ordered list of
    `(Original Name, New Name)` rows.
  * The file system is a flat association of directory path to directory
    contents; fallible OS calls (`shutil.copy`, `shutil.rmtree`) return
    `Except`.
-/

set_option maxHeartbeats 1000000

namespace DrawingRename

/-- A `New Name` table cell: `none` models a pandas null (NaN), `some s` a
string value. -/
abbrev Cell := Option String

/-- One row of `drawings_df`: `(Original Name, New Name)`. -/
abbrev Row := String × Cell

/-- First-match association lookup; models keyed access such as pandas
`Series.map` over a unique index and directory lookups. -/
def lookupA {α : Type} (k : String) : List (String × α) → Option α
  | [] => none
  | p :: ps => if p.1 = k then some p.2 else lookupA k ps

/-- Key membership test on an association list. -/
def hasKey {α : Type} (k : String) (l : List (String × α)) : Bool :=
  l.any (fun p => decide (p.1 = k))

/-- Overwrite the binding of `k` if present (keeping the stored key object, as
Python does), else append `(k, v)`; shared semantics of Python dict assignment
and of writing a file into a directory. -/
def assocSet {α : Type} (l : List (String × α)) (k : String) (v : α) :
    List (String × α) :=
  if hasKey k l then l.map (fun p => if p.1 = k then (p.1, v) else p)
  else l ++ [(k, v)]

/-- Index of the last character satisfying `pr`. -/
def findLastIdx (pr : Char → Bool) : List Char → Option Nat
  | [] => none
  | c :: cs =>
    match findLastIdx pr cs with
    | some i => some (i + 1)
    | none => if pr c then some 0 else none

/-- Models POSIX `os.path.splitext`: split at the last dot, provided that dot
lies in the final path component and some earlier character of that component
is not a dot (so purely-leading dots never start an extension). -/
def splitext (s : String) : String × String :=
  let cs := s.data
  match findLastIdx (fun c => decide (c = '.')) cs with
  | none => (s, "")
  | some d =>
    let start : Nat :=
      match findLastIdx (fun c => decide (c = '/')) cs with
      | none => 0
      | some i => i + 1
    if start ≤ d ∧ ((cs.drop start).take (d - start)).any (fun c => !(decide (c = '.'))) = true then
      (⟨cs.take d⟩, ⟨cs.drop d⟩)
    else (s, "")

/-- Contents of one directory: files as `(name, content)` pairs. -/
abbrev Dir (β : Type) := List (String × β)

/-- A flat file system: directories keyed by path. -/
abbrev FS (β : Type) := List (String × Dir β)

/-- Write a file into a directory, overwriting any file of the same name
(the `shutil.copy` destination semantics). -/
def dirWrite {β : Type} (d : Dir β) (name : String) (content : β) : Dir β :=
  assocSet d name content

/-- Directory lookup by path. -/
def fsLookup {β : Type} (fs : FS β) (path : String) : Option (Dir β) :=
  lookupA path fs

/-- Replace (or create) a directory's contents. -/
def fsSet {β : Type} (fs : FS β) (path : String) (d : Dir β) : FS β :=
  assocSet fs path d

/-- Models `os.makedirs(path, exist_ok=True)`. -/
def makedirs {β : Type} (fs : FS β) (path : String) : FS β :=
  if (fsLookup fs path).isSome then fs else fs ++ [(path, [])]

/-- Models `shutil.rmtree(path)`: fails when the directory does not exist. -/
def rmtree {β : Type} (fs : FS β) (path : String) : Except String (FS β) :=
  if (fsLookup fs path).isSome then
    .ok (fs.filter (fun e => !decide (e.1 = path)))
  else .error "FileNotFoundError"

/-- Models `os.path.exists(dir/name)`. -/
def pathExists {β : Type} (fs : FS β) (dir name : String) : Bool :=
  match fsLookup fs dir with
  | none => false
  | some d => hasKey name d

/-- Models `shutil.copy(srcDir/srcName, dstDir/dstName)`: fails when the
source file or destination directory is missing. -/
def copyFile {β : Type} (fs : FS β) (srcDir srcName dstDir dstName : String) :
    Except String (FS β) :=
  match fsLookup fs srcDir with
  | none => .error "IOError"
  | some sd =>
    match lookupA srcName sd with
    | none => .error "IOError"
    | some content =>
      match fsLookup fs dstDir with
      | none => .error "IOError"
      | some dd => .ok (fsSet fs dstDir (dirWrite dd dstName content))

/-- Lines 51-54 of `process_and_zip_files`: `new_name_base` is the `New Name`
cell when it is non-null (`pd.notna`) and not the empty string, else
`original_name`; the original extension is then appended unconditionally. -/
def computeNewName (originalName : String) (newNameCell : Cell) : String :=
  let base :=
    match newNameCell with
    | some s => if ¬ s = "" then s else originalName
    | none => originalName
  base ++ (splitext originalName).2

/-- One iteration of the row loop of `process_and_zip_files` (lines 50-61):
copy the staged file to its computed name, or skip silently when it is not
staged. -/
def processRow {β : Type} (tempDir : String) (fs : FS β) (row : Row) :
    Except String (FS β) :=
  if pathExists fs tempDir row.1 then
    copyFile fs tempDir row.1 "temp_renamed_files" (computeNewName row.1 row.2)
  else .ok fs

/-- The full row loop of `process_and_zip_files`. -/
def processRows {β : Type} (tempDir : String) (fs : FS β) :
    List Row → Except String (FS β)
  | [] => .ok fs
  | r :: rs =>
    match processRow tempDir fs r with
    | .error e => .error e
    | .ok fs1 => processRows tempDir fs1 rs

/-- Models `process_and_zip_files(drawings_df, temp_dir)` (lines 46-74):
create the output directory, process every row, zip the output directory's
contents (`os.listdir`, read before cleanup), remove both temporary
directories, and return the zip `(name, entries)` together with the final
file system. -/
def process_and_zip_files {β : Type} (drawings_df : List Row) (tempDir : String)
    (fs : FS β) : Except String ((String × Dir β) × FS β) :=
  match processRows tempDir (makedirs fs "temp_renamed_files") drawings_df with
  | .error e => .error e
  | .ok fs2 =>
    match rmtree fs2 tempDir with
    | .error e => .error e
    | .ok fs3 =>
      match rmtree fs3 "temp_renamed_files" with
      | .error e => .error e
      | .ok fs4 =>
        .ok (("renamed_files.zip", (fsLookup fs2 "temp_renamed_files").getD []), fs4)

/-- Models `not drawings_df['New Name'].isnull().all()`: some cell is
non-null. -/
def hasNonNull (t : List Row) : Bool :=
  t.any (fun e => e.2.isSome)

/-- Some cell is a non-empty string. -/
def hasNonEmpty (t : List Row) : Bool :=
  t.any (fun e =>
    match e.2 with
    | some s => decide (¬ s = "")
    | none => false)

/-- Lines 89-92 of `main`: `new_df['New Name'] =
new_df['Original Name'].map(existing_names).fillna('')` — carry forward the
previous cell where the name is a key of the previous table, with missing
names and null cells becoming `''`. -/
def preserveReconcile (prev : List Row) (names : List String) : List Row :=
  names.map (fun n => (n, some (((lookupA n prev).bind id).getD "")))

/-- Lines 98-100 of `main`: a fresh table with every `New Name` set to `''`. -/
def freshTable (names : List String) : List Row :=
  names.map (fun n => (n, some ""))

/-- The mapping table produced by the upload branch of `main` (lines 85-100). -/
def reconcile (prev : List Row) (names : List String) : List Row :=
  if hasNonNull prev then preserveReconcile prev names else freshTable names

/-- Models `save_uploaded_files` (lines 36-45): write every uploaded file into
the staging directory contents under its own name. -/
def save_uploaded_files {β : Type} (files : List (String × β)) (staging : Dir β) :
    Dir β :=
  files.foldl (fun d f => dirWrite d f.1 f.2) staging

/-- Session state carried by `st.session_state`: the mapping table and the
staging directory contents (`none` when `temp_uploaded_files` was never
created). -/
structure Session (β : Type) where
  drawings_df : List Row
  staging : Option (Dir β)

/-- Upload handling in `main` (lines 85-100). The edit-preserving branch
(taken when some `New Name` cell is non-null) rebuilds only the table; the
fresh-start branch also writes the uploaded files into staging via
`save_uploaded_files`. -/
def handleUpload {β : Type} (s : Session β) (files : List (String × β)) :
    Session β :=
  if files.isEmpty then s
  else if hasNonNull s.drawings_df then
    { s with drawings_df := preserveReconcile s.drawings_df (files.map (·.1)) }
  else
    { drawings_df := freshTable (files.map (·.1)),
      staging := some (save_uploaded_files files (s.staging.getD [])) }

/-- The exported two-column record set. -/
structure ExportSheet where
  origTitles : List String
  renamedTitles : List String
deriving DecidableEq

/-- Models `create_excel_download_link(df, 'Original Name')` (lines 9-33):
`None` for an empty table, else the two-column sheet with the original names
in order and a blank `Renamed Title` column. The `ValueError` branch for a
missing column cannot fire here because the caller passes the fixed column
name `'Original Name'`, which the table always has. -/
def create_excel_download_link (df : List Row) : Option ExportSheet :=
  if df.isEmpty then none
  else some { origTitles := df.map (·.1),
              renamedTitles := List.replicate df.length "" }

/-- Python dict assignment `d[k] = v`. -/
def pythonDictIns {α : Type} (d : List (String × α)) (k : String) (v : α) :
    List (String × α) :=
  assocSet d k v

/-- Python `dict(zip(origCol, renamedCol))` (line 144): later bindings
overwrite earlier ones. -/
def pythonDict {α : Type} (l : List (String × α)) : List (String × α) :=
  l.foldl (fun d p => pythonDictIns d p.1 p.2) []

/-- One iteration of the import update loop (lines 149-153): when some row
matches `k`, set the `New Name` of every matching row to `v`. -/
def updateMatched (t : List Row) (k : String) (v : Cell) : List Row :=
  if hasKey k t then t.map (fun e => if e.1 = k then (e.1, v) else e) else t

/-- The whole import update loop over the dict items. -/
def applyNameMap (t : List Row) (m : List (String × Cell)) : List Row :=
  m.foldl (fun t p => updateMatched t p.1 p.2) t

/-- A successfully parsed imported spreadsheet: the parsed column names and
the two projected columns used by the handler (a blank `Renamed Title` cell
parses as null). -/
structure ImportedSheet where
  cols : List String
  origCol : List String
  renamedCol : List Cell

/-- The import-button handler (lines 135-163): returns the (possibly updated)
mapping table and an error message when one is reported via `st.error`. -/
def importExcelHandler (table : List Row) (sheet : Option ImportedSheet) :
    List Row × Option String :=
  match sheet with
  | none => (table, some "No Excel file uploaded. Please upload a file to process.")
  | some s =>
    if "Renamed Title" ∈ s.cols ∧ "Original Title" ∈ s.cols then
      (applyNameMap table (pythonDict (s.origCol.zip s.renamedCol)), none)
    else (table, some "The uploaded Excel file does not have the required columns.")

/-! ### Association-list lemmas -/

theorem lookupA_append {α : Type} (k : String) (xs ys : List (String × α)) :
    lookupA k (xs ++ ys) =
      match lookupA k xs with
      | some v => some v
      | none => lookupA k ys := by
  induction xs with
  | nil => simp [lookupA]
  | cons p ps ih =>
    by_cases h : p.1 = k
    · simp [lookupA, h]
    · simp [lookupA, h, ih]

theorem lookupA_map_upd_self {α : Type} (k : String) (v : α)
    (l : List (String × α)) :
    lookupA k (l.map (fun p => if p.1 = k then (p.1, v) else p)) =
      (lookupA k l).map (fun _ => v) := by
  induction l with
  | nil => simp [lookupA]
  | cons p ps ih =>
    by_cases h : p.1 = k
    · simp [lookupA, h]
    · simp [lookupA, h, ih]

theorem lookupA_map_upd_ne {α : Type} {k k' : String} (hne : ¬ k' = k) (v : α)
    (l : List (String × α)) :
    lookupA k (l.map (fun p => if p.1 = k' then (p.1, v) else p)) =
      lookupA k l := by
  induction l with
  | nil => simp
  | cons p ps ih =>
    by_cases h : p.1 = k'
    · have hk : ¬ p.1 = k := by rw [h]; exact hne
      simp [lookupA, h, hk, hne, ih]
    · simp [lookupA, h, ih]

theorem hasKey_iff_isSome {α : Type} (k : String) (l : List (String × α)) :
    hasKey k l = true ↔ (lookupA k l).isSome = true := by
  induction l with
  | nil => simp [hasKey, lookupA]
  | cons p ps ih =>
    rw [lookupA]
    unfold hasKey
    rw [List.any_cons]
    unfold hasKey at ih
    by_cases h : p.1 = k
    · simp [h]
    · simp [h, ih]

theorem lookupA_assocSet {α : Type} (k k' : String) (v : α)
    (l : List (String × α)) :
    lookupA k (assocSet l k' v) = if k' = k then some v else lookupA k l := by
  unfold assocSet
  by_cases hk : hasKey k' l = true
  · rw [if_pos hk]
    by_cases he : k' = k
    · subst he
      rw [if_pos rfl, lookupA_map_upd_self]
      have hs := (hasKey_iff_isSome k' l).mp hk
      cases h : lookupA k' l with
      | none => rw [h] at hs; simp at hs
      | some w => simp
    · rw [if_neg he, lookupA_map_upd_ne he]
  · rw [if_neg hk, lookupA_append]
    by_cases he : k' = k
    · subst he
      have hnone : lookupA k' l = none := by
        cases h : lookupA k' l with
        | none => rfl
        | some w =>
          exact absurd ((hasKey_iff_isSome k' l).mpr (by simp [h])) hk
      simp [hnone, lookupA]
    · cases h : lookupA k l with
      | none => simp [lookupA, he]
      | some w => simp [he]

theorem lookupA_mem {α : Type} {k : String} {v : α} :
    ∀ {l : List (String × α)}, lookupA k l = some v → (k, v) ∈ l := by
  intro l
  induction l with
  | nil => intro h; simp [lookupA] at h
  | cons p ps ih =>
    intro h
    rw [lookupA] at h
    by_cases hp : p.1 = k
    · rw [if_pos hp] at h
      injection h with h2
      exact List.mem_cons.mpr (Or.inl (by rw [← hp, ← h2]))
    · rw [if_neg hp] at h
      exact List.mem_cons.mpr (Or.inr (ih h))

theorem mem_keys_of_lookupA {α : Type} {k : String} {v : α}
    {l : List (String × α)} (h : lookupA k l = some v) : k ∈ l.map (·.1) := by
  exact List.mem_map.mpr ⟨(k, v), lookupA_mem h, rfl⟩

theorem keys_map_upd {α : Type} (k' : String) (v : α) (l : List (String × α)) :
    (l.map (fun p => if p.1 = k' then (p.1, v) else p)).map (·.1) =
      l.map (·.1) := by
  induction l with
  | nil => rfl
  | cons p ps ih =>
    by_cases h : p.1 = k'
    · simp only [List.map_cons, if_pos h, ih]
    · simp only [List.map_cons, if_neg h, ih]

theorem keys_nodup_assocSet {α : Type} {l : List (String × α)} (k : String)
    (v : α) (h : (l.map (·.1)).Nodup) : ((assocSet l k v).map (·.1)).Nodup := by
  unfold assocSet
  by_cases hk : hasKey k l = true
  · rw [if_pos hk, keys_map_upd]; exact h
  · rw [if_neg hk]
    have hnotmem : k ∉ l.map (·.1) := by
      intro hmem
      rcases List.mem_map.mp hmem with ⟨p, hp, hpk⟩
      exact absurd (List.any_eq_true.mpr ⟨p, hp, decide_eq_true hpk⟩) (by exact hk)
    rw [List.map_append, List.nodup_append]
    refine ⟨h, by simp, ?_⟩
    intro a ha hb
    simp only [List.map_cons, List.map_nil, List.mem_singleton] at hb
    subst hb
    exact hnotmem ha

theorem lookupA_filter_ne {α : Type} (p q : String) (l : List (String × α)) :
    lookupA q (l.filter (fun e => !decide (e.1 = p))) =
      if q = p then none else lookupA q l := by
  induction l with
  | nil => simp [lookupA]
  | cons e es ih =>
    rw [List.filter_cons]
    by_cases he : e.1 = p
    · rw [if_neg (by simp [he]), ih]
      by_cases hq : q = p
      · rw [if_pos hq, if_pos hq]
      · rw [if_neg hq, if_neg hq, lookupA,
          if_neg (fun hh : e.1 = q => hq (by rw [← hh, he]))]
    · rw [if_pos (by simp [he])]
      by_cases hq : e.1 = q
      · have hqp : ¬ q = p := fun hh => he (by rw [hq, hh])
        rw [lookupA, if_pos hq, if_neg hqp, lookupA, if_pos hq]
      · rw [lookupA, if_neg hq, ih]
        by_cases hqp : q = p
        · rw [if_pos hqp, if_pos hqp]
        · rw [if_neg hqp, if_neg hqp, lookupA, if_neg hq]

/-! ### Python-dict and import-loop lemmas -/

theorem lookupA_pythonDict_go {α : Type} (k : String) (l : List (String × α)) :
    ∀ d, lookupA k (l.foldl (fun d p => pythonDictIns d p.1 p.2) d) =
      match lookupA k l.reverse with
      | some v => some v
      | none => lookupA k d := by
  induction l with
  | nil => intro d; simp [lookupA]
  | cons p ps ih =>
    intro d
    rw [List.foldl_cons, ih, List.reverse_cons, lookupA_append]
    cases hx : lookupA k ps.reverse with
    | some w => rfl
    | none =>
      show lookupA k (pythonDictIns d p.1 p.2) = _
      unfold pythonDictIns
      rw [lookupA_assocSet]
      by_cases he : p.1 = k
      · simp [lookupA, he]
      · simp [lookupA, he]

theorem lookupA_pythonDict {α : Type} (k : String) (l : List (String × α)) :
    lookupA k (pythonDict l) = lookupA k l.reverse := by
  rw [pythonDict, lookupA_pythonDict_go]
  cases h : lookupA k l.reverse with
  | some w => rfl
  | none => simp [lookupA]

theorem keys_nodup_pythonDict_go {α : Type} (l : List (String × α)) :
    ∀ d : List (String × α), (d.map (·.1)).Nodup →
      ((l.foldl (fun d p => pythonDictIns d p.1 p.2) d).map (·.1)).Nodup := by
  induction l with
  | nil => intro d h; exact h
  | cons p ps ih =>
    intro d h
    rw [List.foldl_cons]
    exact ih _ (keys_nodup_assocSet p.1 p.2 h)

theorem keys_nodup_pythonDict {α : Type} (l : List (String × α)) :
    ((pythonDict l).map (·.1)).Nodup :=
  keys_nodup_pythonDict_go l [] (by simp)

theorem map_id_of_no_match (t : List Row) (k : String) (v : Cell)
    (h : ∀ e ∈ t, ¬ e.1 = k) :
    t.map (fun e => if e.1 = k then (e.1, v) else e) = t := by
  induction t with
  | nil => rfl
  | cons e es ih =>
    rw [List.map_cons, if_neg (h e (by simp)),
      ih (fun x hx => h x (by simp [hx]))]

theorem updateMatched_eq_map (t : List Row) (k : String) (v : Cell) :
    updateMatched t k v = t.map (fun e => if e.1 = k then (e.1, v) else e) := by
  unfold updateMatched
  by_cases hk : hasKey k t = true
  · rw [if_pos hk]
  · rw [if_neg hk, map_id_of_no_match]
    intro e he hek
    exact hk (List.any_eq_true.mpr ⟨e, he, decide_eq_true hek⟩)

theorem applyNameMap_eq_map :
    ∀ (m : List (String × Cell)) (t : List Row), (m.map (·.1)).Nodup →
      applyNameMap t m = t.map (fun e =>
        match lookupA e.1 m with
        | some v => (e.1, v)
        | none => e) := by
  intro m
  induction m with
  | nil =>
    intro t _
    simp [applyNameMap, lookupA]
  | cons p ps ih =>
    intro t hnd
    have hnd' : (ps.map (·.1)).Nodup := by
      rw [List.map_cons, List.nodup_cons] at hnd
      exact hnd.2
    have hout : p.1 ∉ ps.map (·.1) := by
      rw [List.map_cons, List.nodup_cons] at hnd
      exact hnd.1
    show applyNameMap (updateMatched t p.1 p.2) ps = _
    rw [ih _ hnd', updateMatched_eq_map, List.map_map]
    apply List.map_congr_left
    intro e _
    simp only [Function.comp_apply]
    by_cases heq : e.1 = p.1
    · have hnone : lookupA e.1 ps = none := by
        cases hx : lookupA e.1 ps with
        | none => rfl
        | some w => exact absurd (heq ▸ mem_keys_of_lookupA hx) hout
      rw [if_pos heq]
      show (match lookupA e.1 ps with
        | some v => (e.1, v)
        | none => (e.1, p.2)) = _
      rw [hnone, lookupA, if_pos heq.symm]
    · rw [if_neg heq, lookupA, if_neg (fun hh : p.1 = e.1 => heq hh.symm)]

/-! ### Reconciler lemmas -/

theorem hasNonNull_of_hasNonEmpty {t : List Row} (h : hasNonEmpty t = true) :
    hasNonNull t = true := by
  unfold hasNonEmpty at h
  unfold hasNonNull
  rcases List.any_eq_true.mp h with ⟨e, he, hv⟩
  refine List.any_eq_true.mpr ⟨e, he, ?_⟩
  cases hc : e.2 with
  | none => rw [hc] at hv; simp at hv
  | some s => simp

theorem cell_of_not_hasNonEmpty {prev : List Row} (h : ¬ hasNonEmpty prev = true)
    {k : String} {c : Cell} (hm : (k, c) ∈ prev) : c = none ∨ c = some "" := by
  cases c with
  | none => exact Or.inl rfl
  | some s =>
    right
    by_contra hs
    apply h
    unfold hasNonEmpty
    refine List.any_eq_true.mpr ⟨(k, some s), hm, ?_⟩
    have hse : ¬ s = "" := fun hx => hs (by rw [hx])
    exact decide_eq_true hse

theorem carried_cell_empty {prev : List Row} (h : ¬ hasNonEmpty prev = true)
    (n : String) : (((lookupA n prev).bind id).getD "") = "" := by
  cases hx : lookupA n prev with
  | none => rfl
  | some c =>
    rcases cell_of_not_hasNonEmpty h (lookupA_mem hx) with hc | hc
    · rw [hc]; rfl
    · rw [hc]; rfl

/-! ### Materializer lemmas -/

theorem fsLookup_makedirs_self {β : Type} (fs : FS β) (p : String) :
    (fsLookup (makedirs fs p) p).isSome = true := by
  unfold makedirs
  by_cases h : (fsLookup fs p).isSome = true
  · rw [if_pos h]; exact h
  · rw [if_neg h]
    unfold fsLookup at *
    rw [lookupA_append]
    cases hx : lookupA p fs with
    | some d => simp
    | none => simp [lookupA]

theorem fsLookup_makedirs_ne {β : Type} (fs : FS β) {p q : String}
    (h : ¬ q = p) : fsLookup (makedirs fs q) p = fsLookup fs p := by
  unfold makedirs
  by_cases hx : (fsLookup fs q).isSome = true
  · rw [if_pos hx]
  · rw [if_neg hx]
    unfold fsLookup
    rw [lookupA_append]
    cases hy : lookupA p fs with
    | some d => rfl
    | none => simp [lookupA, h]

theorem rmtree_ok {β : Type} {fs : FS β} {p : String}
    (h : (fsLookup fs p).isSome = true) :
    rmtree fs p = .ok (fs.filter (fun e => !decide (e.1 = p))) := by
  unfold rmtree
  rw [if_pos h]

theorem fsLookup_rm {β : Type} (fs : FS β) (p q : String) :
    fsLookup (fs.filter (fun e => !decide (e.1 = p))) q =
      if q = p then none else fsLookup fs q :=
  lookupA_filter_ne p q fs

theorem processRows_append {β : Type} (tempDir : String) (xs ys : List Row) :
    ∀ fs : FS β, processRows tempDir fs (xs ++ ys) =
      match processRows tempDir fs xs with
      | .error e => .error e
      | .ok fs1 => processRows tempDir fs1 ys := by
  induction xs with
  | nil => intro fs; rfl
  | cons r rs ih =>
    intro fs
    rw [List.cons_append]
    simp only [processRows]
    cases processRow tempDir fs r with
    | error e => rfl
    | ok fs1 => exact ih fs1

theorem processRows_inv {β : Type} {tempDir : String}
    (hdir : ¬ tempDir = "temp_renamed_files") :
    ∀ (rows : List Row) (fs : FS β),
      (fsLookup fs "temp_renamed_files").isSome = true →
      ∃ fs1, processRows tempDir fs rows = .ok fs1 ∧
        fsLookup fs1 tempDir = fsLookup fs tempDir ∧
        (fsLookup fs1 "temp_renamed_files").isSome = true := by
  intro rows
  induction rows with
  | nil => intro fs h; exact ⟨fs, rfl, rfl, h⟩
  | cons r rs ih =>
    intro fs h
    by_cases hex : pathExists fs tempDir r.1 = true
    · obtain ⟨sd, hsd⟩ : ∃ sd, fsLookup fs tempDir = some sd := by
        unfold pathExists at hex
        cases hq : fsLookup fs tempDir with
        | none => rw [hq] at hex; simp at hex
        | some d => exact ⟨d, rfl⟩
      have hkey : hasKey r.1 sd = true := by
        unfold pathExists at hex
        rw [hsd] at hex
        exact hex
      obtain ⟨c, hc⟩ : ∃ c, lookupA r.1 sd = some c := by
        have hs := (hasKey_iff_isSome r.1 sd).mp hkey
        cases hx : lookupA r.1 sd with
        | none => rw [hx] at hs; simp at hs
        | some c => exact ⟨c, rfl⟩
      obtain ⟨dd, hdd⟩ : ∃ dd, fsLookup fs "temp_renamed_files" = some dd := by
        cases hx : fsLookup fs "temp_renamed_files" with
        | none => rw [hx] at h; simp at h
        | some d => exact ⟨d, rfl⟩
      have hstep : processRow tempDir fs r =
          .ok (fsSet fs "temp_renamed_files"
            (dirWrite dd (computeNewName r.1 r.2) c)) := by
        unfold processRow copyFile
        rw [if_pos hex]
        simp only [hsd, hc, hdd]
      have hrsym : ¬ ("temp_renamed_files" = tempDir) := fun hh => hdir hh.symm
      have h1 : fsLookup (fsSet fs "temp_renamed_files"
          (dirWrite dd (computeNewName r.1 r.2) c)) tempDir =
          fsLookup fs tempDir := by
        unfold fsLookup fsSet
        rw [lookupA_assocSet, if_neg hrsym]
      have h2 : (fsLookup (fsSet fs "temp_renamed_files"
          (dirWrite dd (computeNewName r.1 r.2) c)) "temp_renamed_files").isSome
          = true := by
        unfold fsLookup fsSet
        rw [lookupA_assocSet, if_pos rfl]
        rfl
      obtain ⟨fs1, hrun, ha, hb⟩ := ih _ h2
      refine ⟨fs1, ?_, ?_, hb⟩
      · show (match processRow tempDir fs r with
          | Except.error e => Except.error e
          | Except.ok fsx => processRows tempDir fsx rs) = Except.ok fs1
        rw [hstep]
        exact hrun
      · rw [ha, h1]
    · have hstep : processRow tempDir fs r = .ok fs := by
        unfold processRow
        rw [if_neg hex]
      obtain ⟨fs1, hrun, ha, hb⟩ := ih fs h
      refine ⟨fs1, ?_, ha, hb⟩
      show (match processRow tempDir fs r with
        | Except.error e => Except.error e
        | Except.ok fsx => processRows tempDir fsx rs) = Except.ok fs1
      rw [hstep]
      exact hrun

theorem process_and_zip_ok {β : Type} (df : List Row) (tempDir : String)
    (fs : FS β) (hdir : ¬ tempDir = "temp_renamed_files")
    (hstage : (fsLookup fs tempDir).isSome = true) :
    ∃ zipEntries fs4,
      process_and_zip_files df tempDir fs =
        .ok (("renamed_files.zip", zipEntries), fs4) ∧
      fsLookup fs4 tempDir = none ∧
      fsLookup fs4 "temp_renamed_files" = none := by
  obtain ⟨fs2, hrows, htd, hrn⟩ :=
    processRows_inv hdir df (makedirs fs "temp_renamed_files")
      (fsLookup_makedirs_self fs "temp_renamed_files")
  have htd2 : (fsLookup fs2 tempDir).isSome = true := by
    rw [htd, fsLookup_makedirs_ne fs (fun hh => hdir hh.symm)]
    exact hstage
  have hrm1 := rmtree_ok htd2
  have hrn3 : (fsLookup (fs2.filter (fun e => !decide (e.1 = tempDir)))
      "temp_renamed_files").isSome = true := by
    rw [fsLookup_rm, if_neg (fun hh => hdir hh.symm)]
    exact hrn
  have hrm2 := rmtree_ok hrn3
  refine ⟨(fsLookup fs2 "temp_renamed_files").getD [],
    (fs2.filter (fun e => !decide (e.1 = tempDir))).filter
      (fun e => !decide (e.1 = "temp_renamed_files")), ?_, ?_, ?_⟩
  · simp only [process_and_zip_files, hrows, hrm1, hrm2]
  · rw [fsLookup_rm, if_neg hdir, fsLookup_rm, if_pos rfl]
  · rw [fsLookup_rm, if_pos rfl]

/-- Replace a null `New Name` cell by the empty string, keeping string cells
unchanged. -/
def normRow (r : Row) : Row := (r.1, some (r.2.getD ""))

theorem computeNewName_norm (r : Row) :
    computeNewName r.1 (some (r.2.getD "")) = computeNewName r.1 r.2 := by
  cases hc : r.2 with
  | none => rfl
  | some s => rfl

theorem processRows_norm {β : Type} (tempDir : String) :
    ∀ (df : List Row) (fs : FS β),
      processRows tempDir fs (df.map normRow) = processRows tempDir fs df := by
  intro df
  induction df with
  | nil => intro fs; rfl
  | cons r rs ih =>
    intro fs
    rw [List.map_cons]
    simp only [processRows]
    have hr : processRow tempDir fs (normRow r) = processRow tempDir fs r := by
      simp only [processRow, normRow]
      rw [computeNewName_norm]
    rw [hr]
    cases processRow tempDir fs r with
    | error e => rfl
    | ok fs1 => exact ih fs1

/-! ### Claim theorems -/

/-- C1. Evaluating `process_and_zip_files` on the spec's example table
`[("a.png","alpha"), ("b.jpg","")]` with both files staged: the archive
entries are `alpha.png` and `b.jpg.jpg`. The no-rename row keeps
`original_name` as the base and then gets the original extension appended a
second time (line 54 appends unconditionally), so the entry name `b.jpg`
claimed by the spec does not appear. -/
theorem claim1_materializer_example :
    process_and_zip_files [("a.png", some "alpha"), ("b.jpg", some "")]
        "temp_uploaded_files"
        [("temp_uploaded_files", [("a.png", (0 : Nat)), ("b.jpg", 1)])] =
      .ok (("renamed_files.zip", [("alpha.png", 0), ("b.jpg.jpg", 1)]), []) := by
  rfl

/-- C2. In the edit-preserving upload branch (previous table has a non-null
`New Name`), `main` does not call `save_uploaded_files`: after uploading
`b.png` against a table that maps `a.png` to `alpha`, the staging store still
holds only `a.png` and the uploaded `b.png` bytes were never staged. -/
theorem claim2_upload_preserve_branch_no_staging :
    (handleUpload ⟨[(("a.png" : String), (some "alpha" : Cell))],
        some [("a.png", (7 : Nat))]⟩ [("b.png", 8)]).staging =
      some [("a.png", 7)] ∧
    lookupA "b.png"
      ((handleUpload ⟨[(("a.png" : String), (some "alpha" : Cell))],
          some [("a.png", (7 : Nat))]⟩ [("b.png", 8)]).staging.getD []) =
      none := by
  exact ⟨rfl, rfl⟩

/-- C3 counterexample. Previous table `[("a.png", null), ("b.png", "X")]` has
a non-empty `new_name` and `a.png` is one of its keys, so the claim requires
the `a.png` entry of `reconcile` over batch `["a.png"]` to carry the previous
cell (null) forward; the code instead yields the empty string (`fillna('')`
normalises the null). -/
theorem claim3_carry_forward_counterexample :
    hasNonEmpty [("a.png", none), ("b.png", some "X")] = true ∧
    lookupA "a.png" [(("a.png" : String), (none : Cell)), ("b.png", some "X")] =
      some none ∧
    reconcile [("a.png", none), ("b.png", some "X")] ["a.png"] =
      [("a.png", some "")] ∧
    ¬ reconcile [("a.png", none), ("b.png", some "X")] ["a.png"] =
      [("a.png", none)] := by
  refine ⟨rfl, rfl, rfl, by decide⟩

/-- C3 amended. Reconciliation produces exactly one entry per uploaded name,
in order; an entry's `new_name` is carried forward from the previous table —
with a null carried value normalised to the empty string — if and only if
the name is a key of the previous table and the previous table has some
non-empty `new_name`; otherwise it is the empty string. The `Nodup`
hypothesis reflects the table invariant that `original_name` is unique
(pandas `set_index(...).map` requires a unique index). -/
theorem claim3_reconcile_spec (prev : List Row) (names : List String)
    (_hnd : (prev.map (·.1)).Nodup) :
    reconcile prev names = names.map (fun n =>
      if (lookupA n prev).isSome = true ∧ hasNonEmpty prev = true then
        (n, some (((lookupA n prev).bind id).getD ""))
      else (n, some "")) := by
  unfold reconcile
  by_cases hnn : hasNonNull prev = true
  · rw [if_pos hnn]
    unfold preserveReconcile
    apply List.map_congr_left
    intro n _
    by_cases hcond : (lookupA n prev).isSome = true ∧ hasNonEmpty prev = true
    · rw [if_pos hcond]
    · rw [if_neg hcond]
      cases hx : lookupA n prev with
      | none => rfl
      | some c =>
        have hne : ¬ hasNonEmpty prev = true :=
          fun hh => hcond ⟨by simp [hx], hh⟩
        rcases cell_of_not_hasNonEmpty hne (lookupA_mem hx) with hc | hc <;>
          subst hc <;> rfl
  · rw [if_neg hnn]
    unfold freshTable
    apply List.map_congr_left
    intro n _
    have hne : ¬ hasNonEmpty prev = true :=
      fun hh => hnn (hasNonNull_of_hasNonEmpty hh)
    rw [if_neg (fun hc => hne hc.2)]

/-- C3 amended, witness: a previous table with an edit, reconciled against a
batch with one recurring and one new name. -/
theorem claim3_reconcile_spec_witness :
    (([(("a.png" : String), (some "alpha" : Cell))].map (·.1)).Nodup) ∧
    reconcile [("a.png", some "alpha")] ["a.png", "b.png"] =
      [("a.png", some "alpha"), ("b.png", some "")] := by
  constructor
  · decide
  · rw [claim3_reconcile_spec _ _ (by decide)]
    decide

/-- C4. When the previous table has no non-empty `new_name` anywhere,
reconciliation yields the batch's names, in order, each with empty
`new_name` — in both the preserve branch (taken when some cell is non-null,
e.g. `''`) and the fresh-start branch. -/
theorem claim4_fresh_start (prev : List Row) (names : List String)
    (_hnd : (prev.map (·.1)).Nodup) (h : hasNonEmpty prev = false) :
    reconcile prev names = names.map (fun n => (n, some "")) := by
  have hne : ¬ hasNonEmpty prev = true := by rw [h]; simp
  unfold reconcile
  by_cases hnn : hasNonNull prev = true
  · rw [if_pos hnn]
    unfold preserveReconcile
    apply List.map_congr_left
    intro n _
    rw [carried_cell_empty hne]
  · rw [if_neg hnn]
    rfl

/-- C4 witness: an all-empty (but non-null) previous table overlapping the
new batch still produces an all-empty table over exactly the batch. -/
theorem claim4_fresh_start_witness :
    ((([(("a.png" : String), (some "" : Cell))] : List Row).map (·.1)).Nodup ∧
      hasNonEmpty [(("a.png" : String), (some "" : Cell))] = false) ∧
    reconcile [("a.png", some "")] ["a.png", "b.png"] =
      [("a.png", some ""), ("b.png", some "")] := by
  refine ⟨⟨by decide, by decide⟩, ?_⟩
  rw [claim4_fresh_start _ _ (by decide) (by decide)]
  decide

/-- C5. On an imported sheet with both required columns, the handler updates
every table entry whose `original_name` is a key of
`dict(zip(origCol, renamedCol))` to the imported value — the last occurrence
of a repeated `Original Title` wins (lookup in the reversed row list) and a
null imported value overwrites too — and leaves all other entries unchanged;
no error is reported. -/
theorem claim5_import_success (table : List Row) (s : ImportedSheet)
    (hcols : "Renamed Title" ∈ s.cols ∧ "Original Title" ∈ s.cols) :
    importExcelHandler table (some s) =
      (table.map (fun e =>
        match lookupA e.1 ((s.origCol.zip s.renamedCol).reverse) with
        | some v => (e.1, v)
        | none => e), none) := by
  simp only [importExcelHandler]
  rw [if_pos hcols, applyNameMap_eq_map _ _ (keys_nodup_pythonDict _)]
  exact congrArg (fun t => (t, (none : Option String)))
    (List.map_congr_left (fun e _ => by rw [lookupA_pythonDict]))

/-- C5 witness: repeated `Original Title` rows where the last occurrence
wins, one matched entry updated and one untouched. -/
theorem claim5_import_success_witness :
    ("Renamed Title" ∈ (["Original Title", "Renamed Title"] : List String) ∧
      "Original Title" ∈ (["Original Title", "Renamed Title"] : List String)) ∧
    importExcelHandler [("a.png", some ""), ("b.png", some "")]
        (some ⟨["Original Title", "Renamed Title"], ["a.png", "a.png"],
          [some "x", some "y"]⟩) =
      ([("a.png", some "y"), ("b.png", some "")], none) := by
  refine ⟨⟨by decide, by decide⟩, ?_⟩
  rw [claim5_import_success _ _ ⟨by decide, by decide⟩]
  decide

/-- C6. When the parsed sheet does not contain both `Original Title` and
`Renamed Title`, the handler reports the missing-columns error message and
returns the mapping table unchanged. -/
theorem claim6_import_schema_error (table : List Row) (s : ImportedSheet)
    (h : ¬ ("Renamed Title" ∈ s.cols ∧ "Original Title" ∈ s.cols)) :
    importExcelHandler table (some s) =
      (table,
        some "The uploaded Excel file does not have the required columns.") := by
  simp only [importExcelHandler]
  rw [if_neg h]

/-- C6 witness: a sheet lacking the `Renamed Title` column leaves the table
unchanged and reports the error. -/
theorem claim6_import_schema_error_witness :
    (¬ ("Renamed Title" ∈ (["Original Title"] : List String) ∧
        "Original Title" ∈ (["Original Title"] : List String))) ∧
    importExcelHandler [("a.png", some "x")]
        (some ⟨["Original Title"], ["a.png"], []⟩) =
      ([("a.png", some "x")],
        some "The uploaded Excel file does not have the required columns.") := by
  refine ⟨by decide, ?_⟩
  exact claim6_import_schema_error _ _ (by decide)

/-- C7. Export returns `none` exactly on the empty table; on a non-empty
table it returns a sheet whose `Original Title` column is the table's
original names in order and whose `Renamed Title` column has one blank per
row; and the output depends only on the original names, never on the current
`New Name` edits. -/
theorem claim7_export_spec (df df2 : List Row)
    (hsame : df.map (·.1) = df2.map (·.1)) :
    create_excel_download_link df = create_excel_download_link df2 ∧
    (df = [] → create_excel_download_link df = none) ∧
    (¬ df = [] → ∃ s, create_excel_download_link df = some s ∧
      s.origTitles = df.map (·.1) ∧
      s.renamedTitles.length = df.length ∧
      ∀ r ∈ s.renamedTitles, r = "") := by
  have hlen : df.length = df2.length := by
    have h1 := congrArg List.length hsame
    rwa [List.length_map, List.length_map] at h1
  refine ⟨?_, ?_, ?_⟩
  · have hie : df.isEmpty = df2.isEmpty := by
      cases df with
      | nil =>
        cases df2 with
        | nil => rfl
        | cons b bs => simp at hlen
      | cons a as =>
        cases df2 with
        | nil => simp at hlen
        | cons b bs => rfl
    unfold create_excel_download_link
    rw [hsame, hlen, hie]
  · intro h
    subst h
    rfl
  · intro h
    refine ⟨⟨df.map (·.1), List.replicate df.length ""⟩, ?_, rfl, by simp, ?_⟩
    · unfold create_excel_download_link
      rw [if_neg (by
        cases df with
        | nil => exact absurd rfl h
        | cons a as => simp)]
    · intro r hr
      exact List.eq_of_mem_replicate hr

/-- C7 witness: two one-row tables differing only in their `New Name` cells
export identically, and the non-empty case yields the blank sheet. -/
theorem claim7_export_spec_witness :
    ([(("a.png" : String), (some "x" : Cell))].map (·.1) =
      [(("a.png" : String), (none : Cell))].map (·.1)) ∧
    (create_excel_download_link [("a.png", some "x")] =
      create_excel_download_link [("a.png", none)] ∧
    (([(("a.png" : String), (some "x" : Cell))] : List Row) = [] →
      create_excel_download_link [("a.png", some "x")] = none) ∧
    (¬ ([(("a.png" : String), (some "x" : Cell))] : List Row) = [] →
      ∃ s, create_excel_download_link [("a.png", some "x")] = some s ∧
        s.origTitles = [(("a.png" : String), (some "x" : Cell))].map (·.1) ∧
        s.renamedTitles.length =
          ([(("a.png" : String), (some "x" : Cell))] : List Row).length ∧
        ∀ r ∈ s.renamedTitles, r = "")) := by
  refine ⟨by decide, ?_⟩
  exact claim7_export_spec _ _ (by decide)

/-- C8. An entry whose `original_name` is not staged is skipped silently:
the run with that entry equals the run without it (no output file for it,
later entries unaffected), and the whole run — row loop, packaging and
cleanup — still completes with an `ok` result. -/
theorem claim8_skip_missing {β : Type} (pre post : List Row) (e : Row)
    (tempDir : String) (fs : FS β)
    (hdir : ¬ tempDir = "temp_renamed_files")
    (hstage : (fsLookup fs tempDir).isSome = true)
    (hmiss : pathExists fs tempDir e.1 = false) :
    process_and_zip_files (pre ++ e :: post) tempDir fs =
      process_and_zip_files (pre ++ post) tempDir fs ∧
    ∃ r, process_and_zip_files (pre ++ e :: post) tempDir fs = Except.ok r := by
  obtain ⟨fs2, hpre, htd, hrn⟩ :=
    processRows_inv hdir pre (makedirs fs "temp_renamed_files")
      (fsLookup_makedirs_self fs "temp_renamed_files")
  have hmk : fsLookup (makedirs fs "temp_renamed_files") tempDir =
      fsLookup fs tempDir :=
    fsLookup_makedirs_ne fs (fun hh => hdir hh.symm)
  have hex2 : pathExists fs2 tempDir e.1 = false := by
    unfold pathExists
    rw [htd, hmk]
    unfold pathExists at hmiss
    exact hmiss
  have hstep : processRow tempDir fs2 e = .ok fs2 := by
    unfold processRow
    rw [hex2]
    simp
  have heq : processRows tempDir (makedirs fs "temp_renamed_files")
      (pre ++ e :: post) =
      processRows tempDir (makedirs fs "temp_renamed_files") (pre ++ post) := by
    rw [processRows_append, processRows_append, hpre]
    show processRows tempDir fs2 (e :: post) = processRows tempDir fs2 post
    simp only [processRows]
    rw [hstep]
  constructor
  · unfold process_and_zip_files
    rw [heq]
  · obtain ⟨z, fs4, hok, _, _⟩ :=
      process_and_zip_ok (pre ++ e :: post) tempDir fs hdir hstage
    exact ⟨_, hok⟩

/-- C8 witness: a table whose middle entry `ghost.png` is not staged still
materialises as if the entry were absent, and the run completes. -/
theorem claim8_skip_missing_witness :
    ((¬ ("temp_uploaded_files" : String) = "temp_renamed_files") ∧
      (fsLookup [("temp_uploaded_files", [("a.png", (0 : Nat))])]
        "temp_uploaded_files").isSome = true ∧
      pathExists [("temp_uploaded_files", [("a.png", (0 : Nat))])]
        "temp_uploaded_files" "ghost.png" = false) ∧
    process_and_zip_files
        ([("a.png", some "alpha")] ++ ("ghost.png", some "") :: [])
        "temp_uploaded_files" [("temp_uploaded_files", [("a.png", (0 : Nat))])] =
      process_and_zip_files ([("a.png", some "alpha")] ++ [])
        "temp_uploaded_files"
        [("temp_uploaded_files", [("a.png", (0 : Nat))])] ∧
    ∃ r, process_and_zip_files
        ([("a.png", some "alpha")] ++ ("ghost.png", some "") :: [])
        "temp_uploaded_files" [("temp_uploaded_files", [("a.png", (0 : Nat))])] =
      Except.ok r := by
  refine ⟨⟨by decide, by decide, by decide⟩, ?_⟩
  exact claim8_skip_missing _ _ _ _ _ (by decide) (by decide) (by decide)

/-- C9. Whenever the staging directory exists (as the caller guarantees),
materialization returns an archive and a final file system in which both the
staging location and the output location have been removed — for every table,
including ones with skipped entries. -/
theorem claim9_cleanup (df : List Row) (tempDir : String) {β : Type}
    (fs : FS β) (hdir : ¬ tempDir = "temp_renamed_files")
    (hstage : (fsLookup fs tempDir).isSome = true) :
    ∃ zipEntries fs4,
      process_and_zip_files df tempDir fs =
        .ok (("renamed_files.zip", zipEntries), fs4) ∧
      fsLookup fs4 tempDir = none ∧
      fsLookup fs4 "temp_renamed_files" = none := by
  exact process_and_zip_ok df tempDir fs hdir hstage

/-- C9 witness: a run in which the second entry is skipped (not staged)
still removes both temporary directories. -/
theorem claim9_cleanup_witness :
    ((¬ ("temp_uploaded_files" : String) = "temp_renamed_files") ∧
      (fsLookup [("temp_uploaded_files", [("a.png", (0 : Nat))])]
        "temp_uploaded_files").isSome = true) ∧
    ∃ zipEntries fs4,
      process_and_zip_files [("a.png", some ""), ("gone.png", none)]
          "temp_uploaded_files"
          [("temp_uploaded_files", [("a.png", (0 : Nat))])] =
        .ok (("renamed_files.zip", zipEntries), fs4) ∧
      fsLookup fs4 "temp_uploaded_files" = none ∧
      fsLookup fs4 "temp_renamed_files" = none := by
  refine ⟨⟨by decide, by decide⟩, ?_⟩
  exact claim9_cleanup _ _ _ (by decide) (by decide)

/-- C10. A null `New Name` cell is treated exactly like the empty string:
`pd.notna` fails on it, so `original_name` becomes the base name
(`computeNewName n none = n ++ ext n`), and an entire materialization run is
unchanged when every null cell is replaced by the empty string. -/
theorem claim10_null_as_empty :
    (∀ n : String, computeNewName n none = computeNewName n (some "") ∧
      computeNewName n none = n ++ (splitext n).2) ∧
    (∀ (β : Type) (df : List Row) (tempDir : String) (fs : FS β),
      process_and_zip_files (df.map normRow) tempDir fs =
        process_and_zip_files df tempDir fs) := by
  constructor
  · intro n
    exact ⟨rfl, rfl⟩
  · intro β df tempDir fs
    unfold process_and_zip_files
    rw [processRows_norm]

end DrawingRename
